import Mathlib

/-!
Shallow embedding of the retrieval core of the personal-RAG-chatbot
repository: the conversation memory, the chunker, the resume store with
its rebuilt flat index, search, query routing, the resume validator and
the metadata parser (src/resume_manager.py and src/resume_processor.py).

External effects are made explicit parameters:
* the sentence-embedding model is a function `String → List Int`
  (vectors over `Int`; the faiss flat-L2 index is modelled by exact
  squared-Euclidean nearest-neighbour search with ties broken by
  position, as the flat index does);
* every LLM completion call is a value of `Except String String`
  (`ok response` for a returned completion, `error e` for a raised
  exception whose message is `e`).
-/

/-- Python `str.lower()` restricted to the ASCII casing the repository
relies on. -/
def pyLower (s : String) : String :=
  String.mk (s.data.map Char.toLower)

/-- Python `str.upper()` restricted to ASCII casing. -/
def pyUpper (s : String) : String :=
  String.mk (s.data.map Char.toUpper)

/-- Occurrence of `needle` as a contiguous sublist of the character
list `hay`; this is Python's `needle in hay` on strings. -/
def hasSubChars (needle : List Char) : List Char → Bool
  | [] => needle.isEmpty
  | c :: rest => needle.isPrefixOf (c :: rest) || hasSubChars needle rest

/-- Python `needle in hay` for strings. -/
def pyContains (hay needle : String) : Bool :=
  hasSubChars needle.data hay.data

/-- Characters stripped by Python `str.strip()`. -/
def pyIsSpace (c : Char) : Bool :=
  c = ' ' || c = '\t' || c = '\n' || c = '\r' || c = '\x0b' || c = '\x0c'

/-- Python `str.strip()`: drop whitespace from both ends. -/
def pyStrip (s : String) : String :=
  String.mk (((s.data.dropWhile pyIsSpace).reverse.dropWhile pyIsSpace).reverse)

/-- The splitting loop of Python `str.split(sep)` for a non-empty
separator: leftmost non-overlapping matches, empty segments kept.
`fuel` bounds the number of iterations; the input length always
suffices since every step consumes at least one character. -/
def splitSepGo (sep : List Char) : Nat → List Char → List Char → List (List Char)
  | _, acc, [] => [acc.reverse]
  | 0, acc, rem => [acc.reverse ++ rem]
  | fuel + 1, acc, c :: rest =>
    if sep.isPrefixOf (c :: rest) then
      acc.reverse :: splitSepGo sep fuel [] ((c :: rest).drop sep.length)
    else splitSepGo sep fuel (c :: acc) rest

/-- Python `s.split(sep)` for a non-empty separator string. -/
def pySplit (s : String) (sep : String) : List String :=
  (splitSepGo sep.data s.data.length [] s.data).map String.mk

/-- Python `lst[-n:]`. For `n > 0` this is the suffix of the last `n`
elements; for `n = 0` it is the whole list (the `-0` slicing corner of
Python, kept faithfully). -/
def pySliceLast {α : Type} (n : Nat) (l : List α) : List α :=
  if n = 0 then l else l.drop (l.length - n)

/-- One conversation turn, the dict `{"role": r, "content": c}` of
`ConversationMemory.messages`. -/
structure Turn where
  role : String
  content : String
deriving Repr, DecidableEq

/-- `ConversationMemory.add_message`: append the turn, then keep only
the most recent `maxMessages` entries (`self.messages[-self.max_messages:]`)
when the bound is exceeded. -/
def add_message (maxMessages : Nat) (msgs : List Turn) (role content : String) : List Turn :=
  let m := msgs ++ [⟨role, content⟩]
  if m.length > maxMessages then pySliceLast maxMessages m else m

/-- `ConversationMemory.get_context`: `self.messages[-last_n:] if
self.messages else []`. -/
def get_context (msgs : List Turn) (lastN : Nat) : List Turn :=
  if msgs.isEmpty then [] else pySliceLast lastN msgs

/-- A whole sequence of `add_message` calls starting from a fresh
memory. -/
def runAdds (maxMessages : Nat) (ts : List Turn) : List Turn :=
  ts.foldl (fun m t => add_message maxMessages m t.role t.content) []

/-- The windowing loop of `_chunk_text` on a long section: starting at
`start`, emit `section[start : start + chunkSize]` and advance `start`
by `chunkSize - overlap` while `start < len(section)`. The loop in the
source has no fuel; `fuel` is an upper bound on the number of
iterations, and `s.length` iterations always suffice once the step
`chunkSize - overlap` is at least 1 (the configuration used by the
repository is 500/50, step 450). -/
def windowLoop (s : List Char) (chunkSize overlap : Nat) : Nat → Nat → List (List Char)
  | 0, _ => []
  | fuel + 1, start =>
    if start < s.length then
      ((s.drop start).take chunkSize) :: windowLoop s chunkSize overlap fuel (start + (chunkSize - overlap))
    else []

/-- The per-section branch of `_chunk_text`: a section within
`chunkSize` is kept whole, a longer one is windowed with overlap. -/
def chunkOneSection (sec : String) (chunkSize overlap : Nat) : List String :=
  if sec.length ≤ chunkSize then [sec]
  else (windowLoop sec.data chunkSize overlap sec.data.length 0).map String.mk

/-- The section split of `_chunk_text`:
`[s.strip() for s in text.split("\n\n") if s.strip()]`. -/
def textSections (text : String) : List String :=
  ((pySplit text "\n\n").map pyStrip).filter (fun s => !s.isEmpty)

/-- `ResumeManager._chunk_text`. -/
def chunk_text (text : String) (chunkSize overlap : Nat) : List String :=
  (textSections text).flatMap (fun sec => chunkOneSection sec chunkSize overlap)

/-- The metadata record produced by `ResumeProcessor`: the fixed key
set of `_parse_metadata_response`, plus the `error` key that only the
total-failure record of `generate_metadata` carries (`none`
otherwise). -/
structure Metadata where
  candidate_name : String
  email : String
  phone : String
  summary : String
  key_skills : List String
  experience_years : Int
  current_role : String
  education : String
  industries : List String
  filename : String
  error : Option String
deriving Repr, DecidableEq

/-- One stored resume record: `{"text": ..., "metadata": ..., "chunks": ...}`. -/
structure ResumeData where
  text : String
  metadata : Metadata
  chunks : List String
deriving Repr, DecidableEq

/-- The mutable state of a `ResumeManager`: the insertion-ordered
resume dict, the flat chunk table, the parallel chunk-to-resume map,
the faiss index (modelled by the list of embedded vectors, `none` when
the source sets `self.index = None`), and the conversation memory
(bounded at the constructor default 20). -/
structure ManagerState where
  resumes : List (String × ResumeData)
  all_chunks : List String
  chunk_to_resume : List String
  index : Option (List (List Int))
  conversation : List Turn
deriving Repr, DecidableEq

/-- The embedding model `SentenceTransformer.encode`, abstracted. -/
abbrev Embedding := String → List Int

/-- The state of a freshly constructed `ResumeManager`. -/
def initManager : ManagerState :=
  { resumes := [], all_chunks := [], chunk_to_resume := [], index := none, conversation := [] }

/-- Membership test `resume_id in self.resumes` on the ordered dict. -/
def containsResume (s : ManagerState) (rid : String) : Bool :=
  s.resumes.any (fun p => p.1 == rid)

/-- Dict write `self.resumes[rid] = v`: replace in place when the key
exists, otherwise append (Python dicts preserve insertion order). -/
def dictInsert (l : List (String × ResumeData)) (k : String) (v : ResumeData) : List (String × ResumeData) :=
  if l.any (fun p => p.1 == k) then l.map (fun p => if p.1 == k then (k, v) else p)
  else l ++ [(k, v)]

/-- Dict read `self.resumes[rid]` as an option. -/
def lookupResume (s : ManagerState) (rid : String) : Option ResumeData :=
  (s.resumes.find? (fun p => p.1 == rid)).map (fun p => p.2)

/-- The filename mangling of `_generate_resume_id`:
`filename.replace(' ', '_').replace('.', '_')`. -/
def baseResumeId (filename : String) : String :=
  String.mk (filename.data.map (fun c => if c = ' ' || c = '.' then '_' else c))

/-- The counter loop of `_generate_resume_id`. The source loop runs
until a fresh id is found; among the first `resumes.length + 1`
candidates one is always fresh, so that much fuel is exact. -/
def genIdLoop (s : ManagerState) (base : String) : Nat → String → Nat → String
  | 0, current, _ => current
  | fuel + 1, current, counter =>
    if containsResume s current then
      genIdLoop s base fuel (base ++ "_" ++ toString counter) (counter + 1)
    else current

/-- `ResumeManager._generate_resume_id`. -/
def generate_resume_id (s : ManagerState) (filename : String) : String :=
  genIdLoop s (baseResumeId filename) (s.resumes.length + 1) (baseResumeId filename) 1

/-- `ResumeManager._rebuild_index`: recompute the flat chunk table and
the chunk-to-resume map from the stored resumes in order, then either
embed every chunk into a fresh flat index or, when there are no
chunks, set the index to the explicit absent value. -/
def rebuild_index (embed : Embedding) (s : ManagerState) : ManagerState :=
  let chunks := s.resumes.flatMap (fun p => p.2.chunks)
  let c2r := s.resumes.flatMap (fun p => p.2.chunks.map (fun _ => p.1))
  { s with
    all_chunks := chunks
    chunk_to_resume := c2r
    index := if chunks.isEmpty then none else some (chunks.map embed) }

/-- `ResumeManager.add_resume`. The extraction and metadata calls of
`processor.process_resume` are external, so the model receives the
extracted `text` and the `metadata` record they produce; the rest is
the source verbatim: generate a fresh id, chunk the text at 500/50,
prefix every chunk with the candidate-name tag, store the record and
rebuild the index. -/
def add_resume (embed : Embedding) (s : ManagerState) (text : String) (metadata : Metadata)
    (filename : String) : String × Metadata × ManagerState :=
  let rid := generate_resume_id s filename
  let chunks := chunk_text text 500 50
  let enriched := chunks.map (fun c => "[resume: " ++ metadata.candidate_name ++ "]\n" ++ c)
  let s2 := { s with resumes := dictInsert s.resumes rid ⟨text, metadata, enriched⟩ }
  (rid, metadata, rebuild_index embed s2)

/-- `ResumeManager.remove_resume`: `False` untouched when the id is
unknown, otherwise delete the record, rebuild, return `True`. -/
def remove_resume (embed : Embedding) (s : ManagerState) (rid : String) : Bool × ManagerState :=
  if containsResume s rid then
    (true, rebuild_index embed { s with resumes := s.resumes.filter (fun p => !(p.1 == rid)) })
  else (false, s)

/-- `ResumeManager.clear_all_resumes`. -/
def clear_all_resumes (_s : ManagerState) : ManagerState :=
  { resumes := [], all_chunks := [], chunk_to_resume := [], index := none, conversation := [] }

/-- Squared Euclidean distance, the metric of `faiss.IndexFlatL2`. -/
def sqdist (u v : List Int) : Int :=
  (List.zipWith (fun a b => (a - b) * (a - b)) u v).sum

/-- Comparison used to rank chunk positions for a query vector:
ascending distance, ties broken by position as the flat index reports
them. -/
def distLe (vecs : List (List Int)) (q : List Int) (i j : Nat) : Bool :=
  sqdist (vecs.getD i []) q < sqdist (vecs.getD j []) q
    || (sqdist (vecs.getD i []) q == sqdist (vecs.getD j []) q && i ≤ j)

/-- Ordered insertion for the ranking sort. -/
def insSorted (le : Nat → Nat → Bool) (i : Nat) : List Nat → List Nat
  | [] => [i]
  | j :: rest => if le i j then i :: j :: rest else j :: insSorted le i rest

/-- Insertion sort of chunk positions. -/
def sortIdx (le : Nat → Nat → Bool) : List Nat → List Nat
  | [] => []
  | i :: rest => insSorted le i (sortIdx le rest)

/-- Model of `self.index.search(query_embedding, k)`: the `k` nearest
stored positions by squared Euclidean distance. -/
def nearestIdx (vecs : List (List Int)) (q : List Int) (k : Nat) : List Nat :=
  (sortIdx (distLe vecs q) (List.range vecs.length)).take k

/-- `ResumeManager.search_resumes`: empty result on an absent or empty
index, otherwise clamp `k` to `ntotal`, search, and map every returned
position through the chunk table and the chunk-to-resume map (the
source keeps a position only if it is within the chunk table). -/
def search_resumes (embed : Embedding) (s : ManagerState) (q : String) (k : Nat) :
    List (String × String × Int) :=
  match s.index with
  | none => []
  | some vecs =>
    if vecs.length == 0 then []
    else
      let qv := embed q
      let k2 := min k vecs.length
      (nearestIdx vecs qv k2).filterMap (fun idx =>
        if idx < s.all_chunks.length then
          some (s.chunk_to_resume.getD idx "", s.all_chunks.getD idx "", sqdist (vecs.getD idx []) qv)
        else none)

/-- One enriched search result of `search_resumes_with_metadata`. -/
structure SearchResult where
  text : String
  formatted_text : String
  candidate_name : String
  current_role : String
  experience_years : Int
  key_skills : List String
  distance : Int
deriving Repr, DecidableEq, Inhabited

/-- The result record `search_resumes_with_metadata` builds for a
returned position whose resume id is stored: the chunk, its formatted
variant (full header when the candidate name is unseen, inline tag
otherwise), and the owning resume's metadata fields. -/
def swmResult (s : ManagerState) (qv : List Int) (vecs : List (List Int)) (seen : List String)
    (idx : Nat) (data : ResumeData) : SearchResult :=
  { text := s.all_chunks.getD idx ""
    formatted_text :=
      if seen.contains data.metadata.candidate_name then
        "[" ++ data.metadata.candidate_name ++ "]: " ++ s.all_chunks.getD idx ""
      else
        "\n=== " ++ data.metadata.candidate_name ++ " (" ++ data.metadata.current_role
          ++ ") ===\n" ++ s.all_chunks.getD idx ""
    candidate_name := data.metadata.candidate_name
    current_role := data.metadata.current_role
    experience_years := data.metadata.experience_years
    key_skills := data.metadata.key_skills.take 5
    distance := sqdist (vecs.getD idx []) qv }

/-- The result-building loop of `search_resumes_with_metadata`: walk
the returned positions keeping the set of candidate names already
seen; the first result bearing a name gets the full header, later
results with the same name get the inline tag; positions whose resume
id is not stored fall back to the `Unknown` record. -/
def swmGo (s : ManagerState) (qv : List Int) (vecs : List (List Int)) :
    List String → List Nat → List SearchResult
  | _, [] => []
  | seen, idx :: rest =>
    if idx < s.all_chunks.length then
      match lookupResume s (s.chunk_to_resume.getD idx "") with
      | some data =>
        swmResult s qv vecs seen idx data
          :: swmGo s qv vecs
               (if seen.contains data.metadata.candidate_name then seen
                else data.metadata.candidate_name :: seen) rest
      | none =>
        ⟨s.all_chunks.getD idx "", s.all_chunks.getD idx "", "Unknown", "Unknown", 0, [],
          sqdist (vecs.getD idx []) qv⟩ :: swmGo s qv vecs seen rest
    else swmGo s qv vecs seen rest

/-- `ResumeManager.search_resumes_with_metadata`. -/
def search_resumes_with_metadata (embed : Embedding) (s : ManagerState) (q : String) (k : Nat) :
    List SearchResult :=
  match s.index with
  | none => []
  | some vecs =>
    if vecs.length == 0 then []
    else
      let qv := embed q
      let k2 := min k vecs.length
      swmGo s qv vecs [] (nearestIdx vecs qv k2)

/-- `ResumeManager.get_all_metadata` as (resume id, metadata) pairs. -/
def get_all_metadata (s : ManagerState) : List (String × Metadata) :=
  s.resumes.map (fun p => (p.1, p.2.metadata))

/-- One candidate block of the cross-resume overview. -/
def overviewLine (m : Metadata) : String :=
  "\n" ++ m.candidate_name ++ "\n"
    ++ "   role: " ++ m.current_role ++ "\n"
    ++ "   experience: " ++ toString m.experience_years ++ " years\n"
    ++ "   skills: " ++ String.intercalate ", " (m.key_skills.take 10) ++ "\n"
    ++ "   industries: " ++ String.intercalate ", " (m.industries.take 5) ++ "\n"

/-- The deduplicated relevant-sections part of the cross-resume
context: one chunk per resume id, first match wins. -/
def dedupChunksGo : List String → List (String × String × Int) → String
  | _, [] => ""
  | seen, (rid, chunk, _) :: rest =>
    if seen.contains rid then dedupChunksGo seen rest
    else "\n" ++ chunk ++ "\n" ++ dedupChunksGo (rid :: seen) rest

/-- `ResumeManager._build_cross_resume_context`. -/
def build_cross_resume_context (embed : Embedding) (s : ManagerState) (q : String) : String :=
  let overview := "=== resume database overview ===\n"
    ++ String.join ((get_all_metadata s).map (fun p => overviewLine p.2))
  let results := search_resumes embed s q 6
  overview ++ "\n=== relevant resume sections ===\n" ++ dedupChunksGo [] results

/-- The fixed cross-resume trigger keywords of `ResumeManager.query`. -/
def cross_resume_keywords : List String :=
  ["who", "which candidate", "compare", "all", "everyone", "anyone",
   "best", "most", "candidates", "people", "resumes", "group",
   "among", "between", "across"]

/-- The follow-up trigger keywords of `ResumeManager.query`. -/
def follow_up_keywords : List String :=
  ["tell me more", "what about", "their", "them", "he ", "she ", "they ",
   "his ", "her ", "elaborate", "continue", "and what", "also"]

/-- The routing test `any(kw in user_query.lower() for kw in cross_resume_keywords)`. -/
def isCrossResume (q : String) : Bool :=
  cross_resume_keywords.any (fun kw => pyContains (pyLower q) kw)

/-- The follow-up test of `ResumeManager.query`. -/
def isFollowUpQuery (q : String) : Bool :=
  follow_up_keywords.any (fun kw => pyContains (pyLower q) kw)

/-- The context built by `ResumeManager.query` (lines 370-375): the
cross-resume context when a trigger keyword is present, otherwise the
joined formatted texts of the metadata-enriched top-6 search. -/
def queryContext (embed : Embedding) (s : ManagerState) (q : String) : String :=
  if isCrossResume q then build_cross_resume_context embed s q
  else String.intercalate "\n\n" ((search_resumes_with_metadata embed s q 6).map (fun r => r.formatted_text))

/-- `ResumeManager._get_candidates_overview`. -/
def get_candidates_overview (s : ManagerState) : String :=
  if s.resumes.isEmpty then "No candidates in database."
  else
    String.intercalate "\n" (s.resumes.map (fun p =>
      let meta := p.2.metadata
      let skills0 := String.intercalate ", " (meta.key_skills.take 4)
      let skills := if skills0.isEmpty then "Not specified" else skills0
      "• " ++ meta.candidate_name ++ ": " ++ meta.current_role ++ " | "
        ++ toString meta.experience_years ++ " years | Skills: " ++ skills))

/-- The default system prompt assembled by `ResumeManager.query` when
no custom prompt is supplied. -/
def defaultSystemContent (s : ManagerState) (ctx : String) : String :=
  "You are an expert HR assistant helping analyze a collection of resumes.\n\n=== CANDIDATES IN DATABASE ===\n"
    ++ get_candidates_overview s
    ++ "\n\n=== INSTRUCTIONS ===\n- When discussing a candidate, ALWAYS include their full name\n- When comparing candidates, clearly separate information about each person\n- If using pronouns (he/she/they), make sure it\x27s clear who you\x27re referring to\n- When asked follow-up questions, refer back to previously discussed candidates\n- Be objective and cite specific information from their resumes\n- If information is not available, clearly state that\n\n=== RESUME CONTEXT ===\n"
    ++ ctx

/-- The fixed reply of `ResumeManager.query` on an empty store. -/
def noResumesReply : String :=
  "no resumes have been uploaded yet - please upload some resumes first to start querying"

/-- `ResumeManager.query`. The completion call is the function `llm`
from the assembled system content to an outcome; the result is the
returned string (`ok`) or an uncaught exception (`error`), paired with
the conversation memory after the call. On an empty store the fixed
message is returned with no external call. When `use_memory` is false
and the query matches a follow-up keyword, the source reads the
never-assigned local `conv_context` and raises `NameError` before any
completion call. A completion failure is caught and rendered as an
error string with the memory untouched; on success the user turn and
the assistant turn are appended, in that order, to the
bound-20 memory. -/
def query (embed : Embedding) (s : ManagerState) (userQuery : String) (useMemory : Bool)
    (sysPromptOpt : Option String) (llm : String → Except String String) :
    Except String String × List Turn :=
  if s.resumes.isEmpty then (Except.ok noResumesReply, s.conversation)
  else
    let ctx := queryContext embed s userQuery
    let sysContent :=
      match sysPromptOpt with
      | some p => p
      | none => defaultSystemContent s ctx
    if isFollowUpQuery userQuery && !useMemory then
      (Except.error "NameError: name conv_context is not defined", s.conversation)
    else
      match llm sysContent with
      | Except.error e => (Except.ok ("error generating response: " ++ e), s.conversation)
      | Except.ok ans =>
        (Except.ok ans,
          add_message 20 (add_message 20 s.conversation "user" userQuery) "assistant" ans)

/-- The fixed resume-indicator vocabulary of
`ResumeProcessor.validate_is_resume`. -/
def resume_indicators : List String :=
  ["experience", "education", "skills", "employment", "work history",
   "professional", "resume", "curriculum vitae", "cv", "objective",
   "summary", "qualifications", "references", "certifications"]

/-- `sum(1 for indicator in resume_indicators if indicator in text_lower)`. -/
def indicator_count (text : String) : Nat :=
  (resume_indicators.filter (fun ind => pyContains (pyLower text) ind)).length

/-- Python `line.split(':', 1)` guarded by `':' in line`: `none` when
the line has no colon, otherwise the parts before and after the first
colon. -/
def pySplitFirstColon (line : String) : Option (String × String) :=
  let pre := line.data.takeWhile (fun c => !(c = ':'))
  if pre.length = line.data.length then none
  else some (String.mk pre, String.mk (line.data.drop (pre.length + 1)))

/-- One line of the strict two-line classifier response format. -/
def validationFold (acc : Bool × String) (line : String) : Bool × String :=
  match pySplitFirstColon line with
  | none => acc
  | some (k, v) =>
    let key := pyUpper (pyStrip k)
    let value := pyStrip v
    if key == "IS_RESUME" then (pyUpper value == "YES", acc.2)
    else if key == "REASON" then (acc.1, value)
    else acc

/-- Parsing of the classifier response in `validate_is_resume`,
defaulting to a rejection with unknown reason. -/
def parse_validation (responseText : String) : Bool × String :=
  (pySplit (pyStrip responseText) "\n").foldl validationFold
    (false, "could not determine document type")

/-- The fast-path rejection reason of `validate_is_resume`. -/
def heuristicRejectReason : String :=
  "document doesnt appear to be a resume - missing typical sections like experience, education, or skills"

/-- `ResumeProcessor.validate_is_resume`: fewer than 2 indicator terms
rejects immediately with no classification call; otherwise the call is
made and parsed, and if it raises the heuristic count decides (accept
at 3 or more, otherwise reject surfacing the failure). -/
def validate_is_resume (llm : Except String String) (text : String) : Bool × String :=
  let cnt := indicator_count text
  if cnt < 2 then (false, heuristicRejectReason)
  else
    match llm with
    | Except.ok r => parse_validation r
    | Except.error e =>
      if 3 ≤ cnt then (true, "validated by heuristic check")
      else (false, "validation failed: " ++ e)

/-- Comma splitting of list-valued metadata fields:
`[s.strip() for s in value.split(',') if s.strip()]`. -/
def splitTrimNonempty (v : String) : List String :=
  ((pySplit v ",").map pyStrip).filter (fun s => !s.isEmpty)

/-- Longest run of digits at the head of the character list. -/
def leadingDigits : List Char → List Char
  | [] => []
  | c :: rest => if c.isDigit then c :: leadingDigits rest else []

/-- First maximal digit run of the list, the match of
`re.search(r'(\d+)', value)`. -/
def firstDigitRun : List Char → Option (List Char)
  | [] => none
  | c :: rest => if c.isDigit then some (c :: leadingDigits rest) else firstDigitRun rest

/-- Decimal value of a digit run, Python `int` on the matched group. -/
def digitsToNat (ds : List Char) : Nat :=
  ds.foldl (fun a c => a * 10 + (c.toNat - 48)) 0

/-- The default-valued metadata record `_parse_metadata_response`
starts from. -/
def default_metadata (filename : String) : Metadata :=
  { candidate_name := "unknown", email := "not provided", phone := "not provided",
    summary := "", key_skills := [], experience_years := 0,
    current_role := "unknown", education := "unknown", industries := [],
    filename := filename, error := none }

/-- One `KEY: value` line of `_parse_metadata_response`: recognised
keys update their field (empty values fall back to the field default,
list values are comma-split, the experience field takes the first
digit run if any), unrecognised keys and colonless lines are
ignored. -/
def applyMetaLine (m : Metadata) (line : String) : Metadata :=
  match pySplitFirstColon line with
  | none => m
  | some (k, v) =>
    let key := pyUpper (pyStrip k)
    let value := pyStrip v
    if key == "CANDIDATE_NAME" then { m with candidate_name := if value.isEmpty then "unknown" else value }
    else if key == "EMAIL" then { m with email := if value.isEmpty then "not provided" else value }
    else if key == "PHONE" then { m with phone := if value.isEmpty then "not provided" else value }
    else if key == "SUMMARY" then { m with summary := value }
    else if key == "KEY_SKILLS" then { m with key_skills := splitTrimNonempty value }
    else if key == "EXPERIENCE_YEARS" then
      match firstDigitRun value.data with
      | some ds => { m with experience_years := Int.ofNat (digitsToNat ds) }
      | none => m
    else if key == "CURRENT_ROLE" then { m with current_role := if value.isEmpty then "unknown" else value }
    else if key == "EDUCATION" then { m with education := if value.isEmpty then "unknown" else value }
    else if key == "INDUSTRIES" then { m with industries := splitTrimNonempty value }
    else m

/-- `ResumeProcessor._parse_metadata_response`. -/
def parse_metadata_response (responseText filename : String) : Metadata :=
  (pySplit (pyStrip responseText) "\n").foldl applyMetaLine (default_metadata filename)

/-- The total-failure record of `generate_metadata`, carrying the
exception text in its `error` field. -/
def failure_metadata (filename e : String) : Metadata :=
  { candidate_name := "unknown", email := "not provided", phone := "not provided",
    summary := "resume uploaded but metadata extraction failed", key_skills := [],
    experience_years := 0, current_role := "unknown", education := "unknown",
    industries := [], filename := filename, error := some e }

/-- `ResumeProcessor.generate_metadata`: parse the completion response
on success, fall back to the default-valued record with the embedded
error string on a raised call. The resume text only feeds the prompt
of the external call. -/
def generate_metadata (llm : Except String String) (_resumeText filename : String) : Metadata :=
  match llm with
  | Except.ok r => parse_metadata_response r filename
  | Except.error e => failure_metadata filename e

/-- The chunk-table invariants of the spec: parallel chunk table and
chunk-to-resume map, and an index that is absent exactly when the
table is empty and otherwise has one vector per chunk. -/
def managerInv (s : ManagerState) : Prop :=
  s.all_chunks.length = s.chunk_to_resume.length
    ∧ (s.index = none ↔ s.all_chunks = [])
    ∧ (∀ v, s.index = some v → v.length = s.all_chunks.length)

/-- Every entry of the chunk-to-resume map names a stored resume
(holds in every state produced by `rebuild_index`). -/
def chunkMapWF (s : ManagerState) : Prop :=
  ∀ rid ∈ s.chunk_to_resume, containsResume s rid = true

/-- The number of chunks `_chunk_text` emits for one section of length
`L`: one chunk for a section within `chunkSize`, and otherwise one
chunk per window start `0, step, 2*step, ...` strictly below `L`
(where `step = chunkSize - overlap`), that is `ceil(L / step)`. -/
def sectionChunkCount (L chunkSize overlap : Nat) : Nat :=
  if L ≤ chunkSize then 1
  else (L + (chunkSize - overlap) - 1) / (chunkSize - overlap)

/-- Well-formedness of a metadata record as the spec demands it:
non-negative experience estimate, and list fields whose entries are
stripped and non-empty. -/
def metaWF (m : Metadata) : Prop :=
  0 ≤ m.experience_years
    ∧ (∀ sk ∈ m.key_skills, sk ≠ "" ∧ ∃ raw, sk = pyStrip raw)
    ∧ (∀ ind ∈ m.industries, ind ≠ "" ∧ ∃ raw, ind = pyStrip raw)

/-- The fixed key set recognised by `_parse_metadata_response`. -/
def metaKnownKeys : List String :=
  ["CANDIDATE_NAME", "EMAIL", "PHONE", "SUMMARY", "KEY_SKILLS",
   "EXPERIENCE_YEARS", "CURRENT_ROLE", "EDUCATION", "INDUSTRIES"]

/-- A concrete embedding for the C2 instances. -/
def embedC2 : Embedding := fun _ => [0]

/-- A concrete embedding for the C3 instances. -/
def embedC3 : Embedding := fun t => [Int.ofNat t.length]

/-- A concrete one-resume store for the C3 instances. -/
def sC3 : ManagerState :=
  (add_resume embedC3 initManager "hello world" (default_metadata "c3.txt") "c3.txt").2.2

/-- A concrete embedding for the C4 instances. -/
def embedC4 : Embedding := fun _ => [1]

/-- A concrete one-resume store for the C4 instances. -/
def sC4 : ManagerState :=
  (add_resume embedC4 initManager "some resume text" (default_metadata "c4.txt") "c4.txt").2.2

/-- A concrete embedding for the C6 instances. -/
def embedC6 : Embedding := fun _ => [2]

/-- A concrete one-resume store for the C6 instances. -/
def sC6 : ManagerState :=
  (add_resume embedC6 initManager "skills"
    { default_metadata "c6.txt" with candidate_name := "alice" } "c6.txt").2.2

/-- Metadata with the extraction-default candidate name, as two
different stored documents can both carry it. -/
def metaC9 : Metadata := { default_metadata "u.txt" with candidate_name := "unknown" }

/-- A concrete embedding for the C9 instances: the query lands nearer
the chunk of the first document. -/
def embedC9 : Embedding := fun t => if t = "A1" then [0] else if t = "B1" then [5] else [1]

/-- A two-document store whose documents share the candidate name
"unknown", for the C9 instances. -/
def sC9 : ManagerState :=
  rebuild_index embedC9
    { initManager with
      resumes := [("a_txt", ⟨"alpha", metaC9, ["A1"]⟩), ("b_txt", ⟨"beta", metaC9, ["B1"]⟩)] }

/-- The full document-identifying header variant of a formatted
result, as `search_resumes_with_metadata` builds it for the first
chunk of a candidate. -/
def headerText (r : SearchResult) : String :=
  "\n=== " ++ r.candidate_name ++ " (" ++ r.current_role ++ ") ===\n" ++ r.text

/-- The lighter inline tag variant of a formatted result. -/
def inlineText (r : SearchResult) : String :=
  "[" ++ r.candidate_name ++ "]: " ++ r.text

/-- The first result returned on the C9 store: document a_txt, full
header. -/
def rC9a : SearchResult :=
  ⟨"A1", "\n=== unknown (unknown) ===\nA1", "unknown", "unknown", 0, [], 1⟩

/-- The second result returned on the C9 store: document b_txt, inline
tag although it is that document's first result. -/
def rC9b : SearchResult :=
  ⟨"B1", "[unknown]: B1", "unknown", "unknown", 0, [], 16⟩

/-- A concrete embedding for the C10 instances. -/
def embedC10 : Embedding := fun _ => [3]

/-- A concrete one-resume store for the C10 instances. -/
def sC10 : ManagerState :=
  (add_resume embedC10 initManager "abc" (default_metadata "c10.txt") "c10.txt").2.2

/-! ### Theorems -/

theorem windowLoop_characterization (s : List Char) (cs ov : Nat) (hov : ov < cs) :
    ∀ fuel start, (s.length - start + (cs - ov) - 1) / (cs - ov) ≤ fuel →
      windowLoop s cs ov fuel start
        = (List.range ((s.length - start + (cs - ov) - 1) / (cs - ov))).map
            (fun i => (s.drop (start + i * (cs - ov))).take cs) := by
  intro fuel
  induction fuel with
  | zero =>
    intro start h
    rw [Nat.le_zero.mp h]
    simp [windowLoop]
  | succ fuel ih =>
    intro start h
    by_cases hlt : start < s.length
    · have hm : (s.length - start + (cs - ov) - 1) / (cs - ov)
          = (s.length - (start + (cs - ov)) + (cs - ov) - 1) / (cs - ov) + 1 := by
        rcases Nat.lt_or_ge s.length (start + (cs - ov)) with hc | hc
        · have h1 : s.length - (start + (cs - ov)) = 0 := by omega
          rw [h1]
          have h2 : (0 + (cs - ov) - 1) / (cs - ov) = 0 := Nat.div_eq_of_lt (by omega)
          rw [h2]
          have h3 : s.length - start + (cs - ov) - 1 = (s.length - start - 1) + (cs - ov) := by
            omega
          rw [h3, Nat.add_div_right _ (by omega)]
          have h4 : (s.length - start - 1) / (cs - ov) = 0 := Nat.div_eq_of_lt (by omega)
          omega
        · have h1 : s.length - (start + (cs - ov)) + (cs - ov) - 1 = s.length - start - 1 := by
            omega
          rw [h1]
          have h2 : s.length - start + (cs - ov) - 1 = (s.length - start - 1) + (cs - ov) := by
            omega
          rw [h2, Nat.add_div_right _ (by omega)]
      have hstep : windowLoop s cs ov (fuel + 1) start
          = ((s.drop start).take cs) :: windowLoop s cs ov fuel (start + (cs - ov)) := by
        simp [windowLoop, hlt]
      rw [hstep, ih (start + (cs - ov)) (by omega), hm, List.range_succ_eq_map,
        List.map_cons, List.map_map]
      congr 1
      · simp
      · apply List.map_congr_left
        intro i _
        have harg : start + (Nat.succ i) * (cs - ov) = start + (cs - ov) + i * (cs - ov) := by
          rw [Nat.succ_mul]; omega
        simp only [Function.comp]
        rw [harg]
    · have h0 : (s.length - start + (cs - ov) - 1) / (cs - ov) = 0 :=
        Nat.div_eq_of_lt (by omega)
      rw [h0]
      simp [windowLoop, hlt]

theorem chunkOneSection_long (sec : String) (h : 500 < sec.length) :
    chunkOneSection sec 500 50
      = (List.range ((sec.length + 449) / 450)).map
          (fun i => String.mk ((sec.data.drop (i * 450)).take 500)) := by
  have hlen : sec.length = sec.data.length := rfl
  rw [chunkOneSection, if_neg (by omega)]
  rw [windowLoop_characterization sec.data 500 50 (by omega) sec.data.length 0 ?h1]
  case h1 =>
    have hge : 1 ≤ sec.data.length := by omega
    apply Nat.div_le_of_le_mul
    omega
  rw [List.map_map]
  have hcount : sec.data.length - 0 + (500 - 50) - 1 = sec.length + 449 := by omega
  rw [hcount]
  apply List.map_congr_left
  intro i _
  simp [Function.comp]

theorem chunkOneSection_length (sec : String) :
    (chunkOneSection sec 500 50).length = sectionChunkCount sec.length 500 50 := by
  by_cases h : sec.length ≤ 500
  · simp [chunkOneSection, sectionChunkCount, h]
  · rw [chunkOneSection_long sec (by omega), sectionChunkCount, if_neg h]
    simp

theorem sectionChunkCount_mono (L1 L2 : Nat) (h : L1 ≤ L2) :
    sectionChunkCount L1 500 50 ≤ sectionChunkCount L2 500 50 := by
  rw [sectionChunkCount, sectionChunkCount]
  split_ifs with h1 h2 h2
  · exact Nat.le_refl 1
  · rw [Nat.le_div_iff_mul_le (by norm_num)]
    omega
  · omega
  · exact Nat.div_le_div_right (by omega)

/-- C1 (corrected). With chunk_size 500 and overlap 50, the chunker
splits the text into stripped non-empty double-newline sections and
handles each independently; a section of length at most 500 yields
exactly the one chunk that is the whole section; a section of length
L > 500 is windowed with starts advancing by 450 = chunk_size -
overlap and yields exactly ceil(L / 450) chunks (the window count of
the source loop, which exceeds the claimed ceil((L - 50) / 450)
whenever L mod 450 lands in 1..50); the per-section count is monotone
in the section length. -/
theorem c1_chunker (text sec sec2 : String) (hmono : sec.length ≤ sec2.length) :
    chunk_text text 500 50 = (textSections text).flatMap (fun s => chunkOneSection s 500 50)
    ∧ (sec.length ≤ 500 → chunkOneSection sec 500 50 = [sec])
    ∧ (500 < sec.length → chunkOneSection sec 500 50
        = (List.range ((sec.length + 449) / 450)).map
            (fun i => String.mk ((sec.data.drop (i * 450)).take 500)))
    ∧ (chunkOneSection sec 500 50).length = sectionChunkCount sec.length 500 50
    ∧ (chunkOneSection sec 500 50).length ≤ (chunkOneSection sec2 500 50).length := by
  refine ⟨rfl, ?_, ?_, chunkOneSection_length sec, ?_⟩
  · intro h
    rw [chunkOneSection, if_pos h]
  · intro h
    exact chunkOneSection_long sec h
  · rw [chunkOneSection_length sec, chunkOneSection_length sec2]
    exact sectionChunkCount_mono _ _ hmono

/-- C1 witness: the chunker theorem applied to a concrete text and a
concrete pair of sections. -/
theorem c1_chunker_witness :
    ("ab" : String).length ≤ ("abcd" : String).length
    ∧ (chunkOneSection "ab" 500 50).length ≤ (chunkOneSection "abcd" 500 50).length :=
  ⟨by decide, (c1_chunker "x" "ab" "abcd" (by decide)).2.2.2.2⟩

set_option maxRecDepth 8000 in
/-- C1 counterexample: a single 901-character section yields 3 chunks
(window starts 0, 450, 900), while the claimed formula
ceil((L - overlap) / (chunk_size - overlap)) gives 2. -/
theorem c1_counterexample :
    (chunk_text (String.mk (List.replicate 901 'a')) 500 50).length = 3
    ∧ (901 - 50 + (450 - 1)) / 450 = 2 := by
  constructor
  · decide
  · decide

theorem add_message_eq (maxMessages : Nat) (msgs : List Turn) (role content : String) :
    add_message maxMessages msgs role content
      = if (msgs ++ [(⟨role, content⟩ : Turn)]).length > maxMessages
        then pySliceLast maxMessages (msgs ++ [(⟨role, content⟩ : Turn)])
        else (msgs ++ [(⟨role, content⟩ : Turn)]) := rfl

theorem add_message_length_le (maxMessages : Nat) (hmax : 1 ≤ maxMessages)
    (msgs : List Turn) (role content : String) :
    (add_message maxMessages msgs role content).length ≤ maxMessages := by
  rw [add_message_eq]
  split_ifs with h
  · rw [pySliceLast, if_neg (by omega)]
    rw [List.length_drop]
    omega
  · omega

theorem runAdds_bound_aux (maxMessages : Nat) (hmax : 1 ≤ maxMessages) :
    ∀ (ts acc : List Turn), acc.length ≤ maxMessages →
      ((ts.foldl (fun m t => add_message maxMessages m t.role t.content) acc).length ≤ maxMessages) := by
  intro ts
  induction ts with
  | nil => intro acc h; simpa using h
  | cons t ts ih =>
    intro acc _
    simp only [List.foldl_cons]
    exact ih _ (add_message_length_le maxMessages hmax acc t.role t.content)

/-- C5 (corrected). For every bound of at least 1, a sequence of adds
never leaves more than the bound stored, and an add to a full memory
drops exactly the oldest turn; for every request of at least 1 turn,
`get_context` returns the most recent `min n length` turns in
chronological order (a suffix of the stored list, empty when nothing
is stored); stored turns are never mutated, an add only appends the
new turn and possibly discards a prefix (the result is a suffix of the
old list extended by the new turn). The restrictions to bounds and
requests of at least 1 are forced by Python negative slicing:
`lst[-0:]` is the whole list, so a bound of 0 stores 1 turn and
`get_context(0)` returns everything. -/
theorem c5_memory (maxMessages n : Nat) (ts msgs : List Turn) (role content : String)
    (hmax : 1 ≤ maxMessages) (hn : 1 ≤ n) :
    (runAdds maxMessages ts).length ≤ maxMessages
    ∧ (msgs.length = maxMessages →
        add_message maxMessages msgs role content = msgs.tail ++ [⟨role, content⟩])
    ∧ (get_context msgs n).length = min n msgs.length
    ∧ List.IsSuffix (get_context msgs n) msgs
    ∧ List.IsSuffix (add_message maxMessages msgs role content) (msgs ++ [⟨role, content⟩]) := by
  refine ⟨runAdds_bound_aux maxMessages hmax ts [] (by simp), ?_, ?_, ?_, ?_⟩
  · intro hfull
    rw [add_message_eq, if_pos (by simp; omega)]
    rw [pySliceLast, if_neg (by omega)]
    have hd : (msgs ++ [(⟨role, content⟩ : Turn)]).length - maxMessages = 1 := by
      simp; omega
    rw [hd, List.drop_append_of_le_length (by omega), List.drop_one]
  · rw [get_context]
    by_cases h : msgs.isEmpty
    · rw [if_pos h]
      have : msgs = [] := List.isEmpty_iff.mp h
      simp [this]
    · rw [if_neg h, pySliceLast, if_neg (by omega), List.length_drop]
      omega
  · rw [get_context]
    by_cases h : msgs.isEmpty
    · rw [if_pos h]
      exact List.nil_suffix
    · rw [if_neg h, pySliceLast, if_neg (by omega)]
      exact List.drop_suffix _ msgs
  · rw [add_message_eq]
    split_ifs with h
    · rw [pySliceLast, if_neg (by omega)]
      exact List.drop_suffix _ _
    · exact List.suffix_refl _

/-- C5 witness: the memory theorem applied at bound 2 and request 1 on
concrete turn lists. -/
theorem c5_memory_witness :
    (runAdds 2 [⟨"u", "1"⟩, ⟨"a", "2"⟩, ⟨"u", "3"⟩]).length ≤ 2
    ∧ (get_context [⟨"u", "1"⟩, ⟨"u", "2"⟩] 1).length
        = min 1 ([⟨"u", "1"⟩, ⟨"u", "2"⟩] : List Turn).length :=
  ⟨(c5_memory 2 1 [⟨"u", "1"⟩, ⟨"a", "2"⟩, ⟨"u", "3"⟩] [⟨"u", "1"⟩, ⟨"u", "2"⟩] "u" "x"
      (by decide) (by decide)).1,
   (c5_memory 2 1 [⟨"u", "1"⟩, ⟨"a", "2"⟩, ⟨"u", "3"⟩] [⟨"u", "1"⟩, ⟨"u", "2"⟩] "u" "x"
      (by decide) (by decide)).2.2.1⟩

/-- C5 counterexample: with bound 0 a single add stores 1 > 0 turns
(Python `lst[-0:]` keeps everything), and `get_context(0)` on a
one-turn memory returns that turn instead of min(0, 1) = 0 turns. -/
theorem c5_counterexample :
    (add_message 0 [] "user" "hi").length = 1
    ∧ get_context [⟨"user", "hi"⟩] 0 = [⟨"user", "hi"⟩] := by
  constructor
  · decide
  · decide

theorem flatMap_chunks_length (l : List (String × ResumeData)) :
    (l.flatMap (fun p => p.2.chunks)).length
      = (l.flatMap (fun p => p.2.chunks.map (fun _ => p.1))).length := by
  induction l with
  | nil => rfl
  | cons p l ih => simp [ih]

theorem rebuild_index_eq (embed : Embedding) (s : ManagerState) :
    rebuild_index embed s
      = { s with
          all_chunks := s.resumes.flatMap (fun p => p.2.chunks)
          chunk_to_resume := s.resumes.flatMap (fun p => p.2.chunks.map (fun _ => p.1))
          index := if (s.resumes.flatMap (fun p => p.2.chunks)).isEmpty then none
                   else some ((s.resumes.flatMap (fun p => p.2.chunks)).map embed) } := rfl

theorem rebuild_index_inv (embed : Embedding) (s : ManagerState) :
    managerInv (rebuild_index embed s) := by
  rw [rebuild_index_eq]
  refine ⟨flatMap_chunks_length s.resumes, ?_, ?_⟩
  · by_cases h : (s.resumes.flatMap (fun p => p.2.chunks)).isEmpty
    · simp only [if_pos h]
      simpa using List.isEmpty_iff.mp h
    · simp only [if_neg h]
      constructor
      · intro hc
        exact absurd hc (by simp)
      · intro hc
        exact absurd (List.isEmpty_iff.mpr hc) h
  · intro v hv
    by_cases h : (s.resumes.flatMap (fun p => p.2.chunks)).isEmpty
    · simp [if_pos h] at hv
    · simp only [if_neg h] at hv
      simp [← Option.some.injEq _ _ |>.mp hv]

/-- C2: after every add, remove and clear operation the flat chunk
table and the chunk-to-resume map have equal length, and the index is
the explicit absent value exactly when the table is empty and
otherwise holds one vector per chunk; the invariant holds in the
initial state, so it holds in every reachable state (removal of an
unknown id leaves the state untouched, hence the invariant
hypothesis). -/
theorem c2_invariants (embed : Embedding) (s : ManagerState) (text : String)
    (metadata : Metadata) (filename rid : String) (h : managerInv s) :
    managerInv initManager
    ∧ managerInv (add_resume embed s text metadata filename).2.2
    ∧ managerInv (remove_resume embed s rid).2
    ∧ managerInv (clear_all_resumes s) := by
  refine ⟨?_, ?_, ?_, ?_⟩
  · exact ⟨rfl, by simp [initManager], fun v hv => by simp [initManager] at hv⟩
  · exact rebuild_index_inv embed _
  · rw [remove_resume]
    split_ifs with hc
    · exact rebuild_index_inv embed _
    · exact h
  · exact ⟨rfl, by simp [clear_all_resumes], fun v hv => by simp [clear_all_resumes] at hv⟩

/-- C2 witness: the invariant theorem applied to the initial state. -/
theorem c2_invariants_witness :
    managerInv (add_resume embedC2 initManager "hello" (default_metadata "w.txt") "w.txt").2.2
    ∧ managerInv (clear_all_resumes initManager) :=
  ⟨(c2_invariants embedC2 initManager "hello" (default_metadata "w.txt") "w.txt" "x"
      ⟨rfl, by simp [initManager], fun v hv => by simp [initManager] at hv⟩).2.1,
   (c2_invariants embedC2 initManager "hello" (default_metadata "w.txt") "w.txt" "x"
      ⟨rfl, by simp [initManager], fun v hv => by simp [initManager] at hv⟩).2.2.2⟩

theorem length_insSorted (le : Nat → Nat → Bool) (i : Nat) :
    ∀ l : List Nat, (insSorted le i l).length = l.length + 1 := by
  intro l
  induction l with
  | nil => rfl
  | cons j rest ih =>
    simp only [insSorted]
    split_ifs
    · simp
    · simp [ih]

theorem length_sortIdx (le : Nat → Nat → Bool) :
    ∀ l : List Nat, (sortIdx le l).length = l.length := by
  intro l
  induction l with
  | nil => rfl
  | cons i rest ih =>
    simp only [sortIdx]
    rw [length_insSorted, ih]
    simp

theorem mem_insSorted (le : Nat → Nat → Bool) (i x : Nat) :
    ∀ l : List Nat, x ∈ insSorted le i l → x = i ∨ x ∈ l := by
  intro l
  induction l with
  | nil => intro h; simpa [insSorted] using h
  | cons j rest ih =>
    simp only [insSorted]
    split_ifs
    · intro h
      rcases List.mem_cons.mp h with h1 | h1
      · exact Or.inl h1
      · exact Or.inr h1
    · intro h
      rcases List.mem_cons.mp h with h1 | h1
      · exact Or.inr (by simp [h1])
      · rcases ih h1 with h2 | h2
        · exact Or.inl h2
        · exact Or.inr (by simp [h2])

theorem mem_sortIdx (le : Nat → Nat → Bool) (x : Nat) :
    ∀ l : List Nat, x ∈ sortIdx le l → x ∈ l := by
  intro l
  induction l with
  | nil => intro h; simp [sortIdx] at h
  | cons i rest ih =>
    simp only [sortIdx]
    intro h
    rcases mem_insSorted le i x _ h with h1 | h1
    · simp [h1]
    · simp [ih h1]

theorem nearestIdx_length (vecs : List (List Int)) (q : List Int) (k : Nat) :
    (nearestIdx vecs q k).length = min k vecs.length := by
  rw [nearestIdx, List.length_take, length_sortIdx, List.length_range]

theorem nearestIdx_mem_lt (vecs : List (List Int)) (q : List Int) (k i : Nat)
    (h : i ∈ nearestIdx vecs q k) : i < vecs.length := by
  rw [nearestIdx] at h
  exact List.mem_range.mp (mem_sortIdx _ i _ (List.mem_of_mem_take h))

theorem length_filterMap_allsome {α β : Type} (f : α → Option β) :
    ∀ l : List α, (∀ x ∈ l, (f x).isSome) → (l.filterMap f).length = l.length := by
  intro l
  induction l with
  | nil => intro _; rfl
  | cons a l ih =>
    intro h
    rw [List.filterMap_cons]
    rcases ho : f a with _ | b
    · exact absurd (h a (by simp)) (by simp [ho])
    · simp only [List.length_cons]
      rw [ih (fun x hx => h x (by simp [hx]))]

/-- C3: in any state satisfying the store invariant (as every
reachable state does), `search_resumes` returns exactly
min(k, total chunk count) results for every query and every k of at
least 1; in particular k beyond the chunk count yields exactly the
chunk count, and an absent index or empty chunk table yields the
empty list. The model is total, so no exception is possible. -/
theorem c3_search_count (embed : Embedding) (s : ManagerState) (q : String) (k : Nat)
    (hinv : managerInv s) (hk : 1 ≤ k) :
    (search_resumes embed s q k).length = min k s.all_chunks.length
    ∧ (s.index = none → search_resumes embed s q k = [])
    ∧ (s.all_chunks.length ≤ k →
        (search_resumes embed s q k).length = s.all_chunks.length)
    ∧ (s.all_chunks = [] → search_resumes embed s q k = []) := by
  obtain ⟨hlen, hiff, hsize⟩ := hinv
  have hmain : (search_resumes embed s q k).length = min k s.all_chunks.length := by
    rcases hidx : s.index with _ | vecs
    · have hc : s.all_chunks = [] := hiff.mp hidx
      simp [search_resumes, hidx, hc]
    · have hvl : vecs.length = s.all_chunks.length := hsize vecs hidx
      by_cases h0 : vecs.length = 0
      · simp [search_resumes, hidx, h0]
        omega
      · simp only [search_resumes, hidx]
        rw [if_neg (by simpa using h0)]
        rw [length_filterMap_allsome]
        · rw [nearestIdx_length]
          omega
        · intro idx hix
          have hlt := nearestIdx_mem_lt vecs (embed q) _ idx hix
          simp [show idx < s.all_chunks.length by omega]
  refine ⟨hmain, ?_, ?_, ?_⟩
  · intro h
    have hc : s.all_chunks = [] := hiff.mp h
    apply List.eq_nil_of_length_eq_zero
    rw [hmain, hc]
    simp
  · intro h
    rw [hmain]
    omega
  · intro hc
    apply List.eq_nil_of_length_eq_zero
    rw [hmain, hc]
    simp

/-- C3 witness: the search-count theorem on a concrete one-resume
store (one chunk), with k = 5 exceeding the chunk count. -/
theorem c3_search_count_witness :
    (search_resumes embedC3 sC3 "query" 5).length = min 5 sC3.all_chunks.length :=
  (c3_search_count embedC3 sC3 "query" 5 (rebuild_index_inv embedC3 _) (by decide)).1

/-- C4: removing an unknown id returns false and leaves the state --
in particular the chunk table, list and order -- untouched; removing a
stored id deletes the record, rebuilds and returns true. -/
theorem c4_remove_missing (embed : Embedding) (s : ManagerState) (rid : String) :
    (containsResume s rid = false →
        remove_resume embed s rid = (false, s)
        ∧ (remove_resume embed s rid).2.all_chunks = s.all_chunks)
    ∧ (containsResume s rid = true →
        remove_resume embed s rid
          = (true, rebuild_index embed
              { s with resumes := s.resumes.filter (fun p => !(p.1 == rid)) })) := by
  constructor
  · intro h
    have he : remove_resume embed s rid = (false, s) := by
      rw [remove_resume, if_neg (by simp [h])]
    exact ⟨he, by rw [he]⟩
  · intro h
    rw [remove_resume, if_pos h]

/-- C4 witness: the removal theorem on a concrete store, for one
missing id and one stored id. -/
theorem c4_remove_missing_witness :
    remove_resume embedC4 sC4 "nope" = (false, sC4)
    ∧ remove_resume embedC4 sC4 "c4_txt"
        = (true, rebuild_index embedC4
            { sC4 with resumes := sC4.resumes.filter (fun p => !(p.1 == "c4_txt")) }) :=
  ⟨((c4_remove_missing embedC4 sC4 "nope").1 (by decide)).1,
   (c4_remove_missing embedC4 sC4 "c4_txt").2 (by decide)⟩

/-- C6: with a non-empty store, a query containing "compare"
(case-insensitively, substring as Python `in`) routes to the
cross-resume context (database overview plus per-resume deduplicated
search results), and running `query` on it is the same as running it
with that cross-resume context installed as the system prompt; a
query containing none of the fixed trigger keywords routes to the
single-document path whose context is only the joined formatted top-6
search results. -/
theorem c6_routing (embed : Embedding) (s : ManagerState) (q1 q2 : String)
    (_hne : s.resumes ≠ [])
    (hc : pyContains (pyLower q1) "compare" = true)
    (hnone : ∀ kw ∈ cross_resume_keywords, pyContains (pyLower q2) kw = false) :
    isCrossResume q1 = true
    ∧ queryContext embed s q1 = build_cross_resume_context embed s q1
    ∧ isCrossResume q2 = false
    ∧ queryContext embed s q2
        = String.intercalate "\n\n"
            ((search_resumes_with_metadata embed s q2 6).map (fun r => r.formatted_text))
    ∧ (∀ llm : String → Except String String,
        query embed s q1 true none llm
          = query embed s q1 true
              (some (defaultSystemContent s (build_cross_resume_context embed s q1))) llm) := by
  have h1 : isCrossResume q1 = true := by
    rw [isCrossResume]
    apply List.any_eq_true.mpr
    exact ⟨"compare", by simp [cross_resume_keywords], hc⟩
  have h2 : isCrossResume q2 = false := by
    cases hq : isCrossResume q2
    · rfl
    · rw [isCrossResume] at hq
      obtain ⟨kw, hkw, hp⟩ := List.any_eq_true.mp hq
      rw [hnone kw hkw] at hp
      exact absurd hp (by simp)
  have hq1 : queryContext embed s q1 = build_cross_resume_context embed s q1 := by
    rw [queryContext, if_pos h1]
  refine ⟨h1, hq1, h2, ?_, ?_⟩
  · rw [queryContext, if_neg (by simp [h2])]
  · intro llm
    simp only [query, hq1]

/-- C6 witness: the routing theorem on a concrete one-resume store
with the queries "Compare them" and "zzz qqq". -/
theorem c6_routing_witness :
    isCrossResume "Compare them" = true ∧ isCrossResume "zzz qqq" = false :=
  ⟨(c6_routing embedC6 sC6 "Compare them" "zzz qqq" (by decide) (by decide) (by decide)).1,
   (c6_routing embedC6 sC6 "Compare them" "zzz qqq" (by decide) (by decide) (by decide)).2.2.1⟩

/-- C7: the validator follows the two-tier contract. Fewer than 2
indicator terms rejects immediately with a fixed reason and the
result is independent of the classification call (the call is never
made); when the classification call raises, the result is an accept
exactly when the indicator count is at least 3, and at count 2 the
rejection reason surfaces the failure text. The model is a total
function into pairs, so a (bool, reason) pair is always returned and
nothing is raised. -/
theorem c7_validator (text e : String) (o1 o2 : Except String String) :
    (indicator_count text < 2 →
        validate_is_resume o1 text = (false, heuristicRejectReason)
        ∧ validate_is_resume o1 text = validate_is_resume o2 text)
    ∧ ((validate_is_resume (Except.error e) text).1 = true ↔ 3 ≤ indicator_count text)
    ∧ (2 ≤ indicator_count text → indicator_count text < 3 →
        (validate_is_resume (Except.error e) text).2 = "validation failed: " ++ e) := by
  refine ⟨?_, ?_, ?_⟩
  · intro h
    have e1 : validate_is_resume o1 text = (false, heuristicRejectReason) := by
      simp only [validate_is_resume]
      rw [if_pos h]
    have e2 : validate_is_resume o2 text = (false, heuristicRejectReason) := by
      simp only [validate_is_resume]
      rw [if_pos h]
    exact ⟨e1, by rw [e1, e2]⟩
  · simp only [validate_is_resume]
    by_cases h2 : indicator_count text < 2
    · rw [if_pos h2]
      simp
      omega
    · rw [if_neg h2]
      by_cases h3 : 3 ≤ indicator_count text
      · rw [if_pos h3]
        simp [h3]
      · rw [if_neg h3]
        simp
        omega
  · intro ha hb
    simp only [validate_is_resume]
    rw [if_neg (by omega), if_neg (by omega)]

/-- C7 witness: the validator theorem applied to a recipe-like text
(0 indicators, fast-path rejection) and to a text with 3 indicators
accepted by the heuristic fallback when the call raises. -/
theorem c7_validator_witness :
    validate_is_resume (Except.error "down") "this recipe needs flour and sugar"
      = (false, heuristicRejectReason)
    ∧ ((validate_is_resume (Except.error "down") "experience education skills listed").1 = true
        ↔ 3 ≤ indicator_count "experience education skills listed") :=
  ⟨((c7_validator "this recipe needs flour and sugar" "down"
      (Except.error "down") (Except.ok "x")).1 (by decide)).1,
   (c7_validator "experience education skills listed" "down"
      (Except.error "down") (Except.ok "x")).2.1⟩

theorem splitTrimNonempty_wf (v : String) :
    ∀ x ∈ splitTrimNonempty v, x ≠ "" ∧ ∃ raw, x = pyStrip raw := by
  intro x hx
  rw [splitTrimNonempty] at hx
  obtain ⟨hmem, hne⟩ := List.mem_filter.mp hx
  obtain ⟨raw, _, hmap⟩ := List.mem_map.mp hmem
  constructor
  · intro hcon
    subst hcon
    simp only [Bool.not_eq_true'] at hne
    exact absurd hne (by decide)
  · exact ⟨raw, hmap.symm⟩

theorem failure_metadata_wf (fn e : String) : metaWF (failure_metadata fn e) := by
  refine ⟨?_, ?_, ?_⟩ <;> simp [failure_metadata, metaWF]

set_option maxHeartbeats 2000000 in
theorem applyMetaLine_wf (m : Metadata) (hm : metaWF m) (line : String) :
    metaWF (applyMetaLine m line) := by
  rcases hsp : pySplitFirstColon line with _ | ⟨k, v⟩
  · simp only [applyMetaLine, hsp]
    exact hm
  · simp only [applyMetaLine, hsp]
    split_ifs
    all_goals
      first
      | exact ⟨hm.1, hm.2.1, hm.2.2⟩
      | exact ⟨hm.1, fun sk hsk => splitTrimNonempty_wf _ sk hsk, hm.2.2⟩
      | exact ⟨hm.1, hm.2.1, fun i hi => splitTrimNonempty_wf _ i hi⟩
      | (rcases hfd : firstDigitRun (pyStrip v).data with _ | ds
         · simp only [hfd]
           exact hm
         · simp only [hfd]
           exact ⟨Int.ofNat_zero_le (digitsToNat ds), hm.2.1, hm.2.2⟩)

theorem foldl_applyMetaLine_wf :
    ∀ (lines : List String) (m : Metadata), metaWF m → metaWF (lines.foldl applyMetaLine m) := by
  intro lines
  induction lines with
  | nil => intro m hm; exact hm
  | cons l lines ih =>
    intro m hm
    simp only [List.foldl_cons]
    exact ih _ (applyMetaLine_wf m hm l)

theorem default_metadata_wf (fn : String) : metaWF (default_metadata fn) := by
  refine ⟨?_, ?_, ?_⟩ <;> simp [default_metadata, metaWF]

/-- C8: metadata generation always yields the full fixed-shape record
with well-formed values: experience_years is a non-negative integer
(0 unless a digit run is extracted), list fields hold only stripped
non-empty comma-separated entries, lines with unrecognised keys (or
no colon) leave the record unchanged, an empty response yields the
all-defaults record, and a raised completion call yields the fixed
default-valued failure record embedding the exception text in its
error field. The model is total, so the operation never raises. -/
theorem c8_metadata (llm : Except String String) (rt fn e line : String) (m : Metadata) :
    metaWF (generate_metadata llm rt fn)
    ∧ (llm = Except.error e → generate_metadata llm rt fn = failure_metadata fn e)
    ∧ (failure_metadata fn e).error = some e
    ∧ ((∀ kv : String × String, pySplitFirstColon line = some kv →
          pyUpper (pyStrip kv.1) ∉ metaKnownKeys) → applyMetaLine m line = m)
    ∧ parse_metadata_response "" fn = default_metadata fn
    ∧ (parse_metadata_response "EXPERIENCE_YEARS: seven" fn).experience_years = 0
    ∧ (parse_metadata_response "EXPERIENCE_YEARS: 12 years" fn).experience_years = 12 := by
  refine ⟨?_, ?_, rfl, ?_, rfl, rfl, rfl⟩
  · rcases llm with e2 | r
    · exact failure_metadata_wf fn e2
    · exact foldl_applyMetaLine_wf _ _ (default_metadata_wf fn)
  · intro h
    rw [h]
    rfl
  · intro h
    rcases hsp : pySplitFirstColon line with _ | ⟨k, v⟩
    · simp only [applyMetaLine, hsp]
    · have hnotin := h (k, v) hsp
      simp only [metaKnownKeys, List.mem_cons, List.not_mem_nil, or_false] at hnotin
      push_neg at hnotin
      obtain ⟨h1, h2, h3, h4, h5, h6, h7, h8, h9⟩ := hnotin
      simp only [applyMetaLine, hsp]
      simp [h1, h2, h3, h4, h5, h6, h7, h8, h9]

/-- C8 witness: the metadata theorem applied to a raised call and to a
line with the unrecognised key BOGUS. -/
theorem c8_metadata_witness :
    generate_metadata (Except.error "api down") "txt" "r.pdf" = failure_metadata "r.pdf" "api down"
    ∧ applyMetaLine (default_metadata "r.pdf") "BOGUS: x" = default_metadata "r.pdf" :=
  ⟨(c8_metadata (Except.error "api down") "txt" "r.pdf" "api down" "BOGUS: x"
      (default_metadata "r.pdf")).2.1 rfl,
   (c8_metadata (Except.error "api down") "txt" "r.pdf" "api down" "BOGUS: x"
      (default_metadata "r.pdf")).2.2.2.1 (by
        intro kv h
        have hc : pySplitFirstColon "BOGUS: x" = some ("BOGUS", " x") := by decide
        rw [hc] at h
        have hkv : kv = ("BOGUS", " x") := ((Option.some.injEq _ _).mp h).symm
        subst hkv
        decide)⟩

theorem add_message_ends (conv : List Turn) (r c : String) :
    ∃ pre : List Turn, add_message 20 conv r c = pre ++ [⟨r, c⟩] := by
  rw [add_message_eq]
  split_ifs with h
  · rw [pySliceLast, if_neg (by omega)]
    have hle : (conv ++ [(⟨r, c⟩ : Turn)]).length - 20 ≤ conv.length := by
      simp
    rw [List.drop_append_of_le_length hle]
    exact ⟨_, rfl⟩
  · exact ⟨conv, rfl⟩

theorem double_add_suffix (conv : List Turn) (q ans : String) :
    List.IsSuffix [⟨"user", q⟩, ⟨"assistant", ans⟩]
      (add_message 20 (add_message 20 conv "user" q) "assistant" ans) := by
  obtain ⟨pre, hpre⟩ := add_message_ends conv "user" q
  rw [hpre, add_message_eq]
  split_ifs with h
  · rw [pySliceLast, if_neg (by omega)]
    rw [List.append_assoc, List.drop_append_of_le_length (by simp)]
    exact ⟨_, rfl⟩
  · rw [List.append_assoc]
    exact ⟨pre, rfl⟩

/-- C10: on a non-empty store (run with memory enabled, the default
and the only call mode of the app), a raised completion call makes
`query` return the error string with the conversation memory exactly
as before, no turn appended; a successful call returns the answer with
exactly the user turn then the assistant turn appended (through the
bound-20 memory), so the two turns are the final suffix of the new
memory. -/
theorem c10_query_memory (embed : Embedding) (s : ManagerState) (q : String)
    (sp : Option String) (llm : String → Except String String) (e ans : String)
    (hne : s.resumes ≠ []) :
    ((∀ msg, llm msg = Except.error e) →
        query embed s q true sp llm
          = (Except.ok ("error generating response: " ++ e), s.conversation))
    ∧ ((∀ msg, llm msg = Except.ok ans) →
        query embed s q true sp llm
          = (Except.ok ans,
              add_message 20 (add_message 20 s.conversation "user" q) "assistant" ans)
        ∧ List.IsSuffix [⟨"user", q⟩, ⟨"assistant", ans⟩] (query embed s q true sp llm).2) := by
  have hni : s.resumes.isEmpty = false := by
    cases h : s.resumes.isEmpty
    · rfl
    · exact absurd (List.isEmpty_iff.mp h) hne
  constructor
  · intro hllm
    simp [query, hni, hllm]
  · intro hllm
    have h2 : query embed s q true sp llm
        = (Except.ok ans,
            add_message 20 (add_message 20 s.conversation "user" q) "assistant" ans) := by
      simp [query, hni, hllm]
    refine ⟨h2, ?_⟩
    rw [h2]
    exact double_add_suffix s.conversation q ans

/-- C10 witness: the query-memory theorem on a concrete one-resume
store with a constant failing call and a constant succeeding call. -/
theorem c10_query_memory_witness :
    query embedC10 sC10 "hi" true none (fun _ => Except.error "boom")
      = (Except.ok ("error generating response: " ++ "boom"), sC10.conversation)
    ∧ query embedC10 sC10 "hi" true none (fun _ => Except.ok "fine")
      = (Except.ok "fine",
          add_message 20 (add_message 20 sC10.conversation "user" "hi") "assistant" "fine") :=
  ⟨(c10_query_memory embedC10 sC10 "hi" none (fun _ => Except.error "boom") "boom" "fine"
      (by decide)).1 (fun _ => rfl),
   ((c10_query_memory embedC10 sC10 "hi" none (fun _ => Except.ok "fine") "boom" "fine"
      (by decide)).2 (fun _ => rfl)).1⟩

theorem swmResult_text (s : ManagerState) (qv : List Int) (vecs : List (List Int))
    (seen : List String) (idx : Nat) (data : ResumeData) :
    (swmResult s qv vecs seen idx data).text = s.all_chunks.getD idx "" := rfl

theorem swmResult_name (s : ManagerState) (qv : List Int) (vecs : List (List Int))
    (seen : List String) (idx : Nat) (data : ResumeData) :
    (swmResult s qv vecs seen idx data).candidate_name = data.metadata.candidate_name := rfl

theorem swmResult_formatted_seen (s : ManagerState) (qv : List Int) (vecs : List (List Int))
    (seen : List String) (idx : Nat) (data : ResumeData)
    (h : seen.contains data.metadata.candidate_name = true) :
    (swmResult s qv vecs seen idx data).formatted_text
      = inlineText (swmResult s qv vecs seen idx data) := by
  have h2 : inlineText (swmResult s qv vecs seen idx data)
      = "[" ++ data.metadata.candidate_name ++ "]: " ++ s.all_chunks.getD idx "" := rfl
  rw [h2]
  exact if_pos h

theorem swmResult_formatted_fresh (s : ManagerState) (qv : List Int) (vecs : List (List Int))
    (seen : List String) (idx : Nat) (data : ResumeData)
    (h : seen.contains data.metadata.candidate_name = false) :
    (swmResult s qv vecs seen idx data).formatted_text
      = headerText (swmResult s qv vecs seen idx data) := by
  have h2 : headerText (swmResult s qv vecs seen idx data)
      = "\n=== " ++ data.metadata.candidate_name ++ " (" ++ data.metadata.current_role
          ++ ") ===\n" ++ s.all_chunks.getD idx "" := rfl
  rw [h2]
  exact if_neg (by rw [h]; decide)

theorem swmGo_cons_found (s : ManagerState) (qv : List Int) (vecs : List (List Int))
    (seen : List String) (idx : Nat) (rest : List Nat) (data : ResumeData)
    (hidx : idx < s.all_chunks.length)
    (hdata : lookupResume s (s.chunk_to_resume.getD idx "") = some data) :
    swmGo s qv vecs seen (idx :: rest)
      = swmResult s qv vecs seen idx data
          :: swmGo s qv vecs
               (if seen.contains data.metadata.candidate_name then seen
                else data.metadata.candidate_name :: seen) rest := by
  simp only [swmGo, if_pos hidx, hdata]

theorem swmGo_cons_skip (s : ManagerState) (qv : List Int) (vecs : List (List Int))
    (seen : List String) (idx : Nat) (rest : List Nat)
    (hidx : ¬ idx < s.all_chunks.length) :
    swmGo s qv vecs seen (idx :: rest) = swmGo s qv vecs seen rest := by
  simp only [swmGo, if_neg hidx]

theorem lookup_found (s : ManagerState)
    (hlen : s.all_chunks.length = s.chunk_to_resume.length)
    (hwf : chunkMapWF s) (idx : Nat) (hidx : idx < s.all_chunks.length) :
    ∃ data, lookupResume s (s.chunk_to_resume.getD idx "") = some data := by
  have hlt : idx < s.chunk_to_resume.length := by omega
  have hmem : s.chunk_to_resume.getD idx "" ∈ s.chunk_to_resume := by
    rw [List.getD_eq_getElem s.chunk_to_resume "" hlt]
    exact List.getElem_mem hlt
  have hc := hwf _ hmem
  rw [containsResume, List.any_eq_true] at hc
  obtain ⟨p, hp, hpe⟩ := hc
  have hsome : (s.resumes.find? (fun p => p.1 == s.chunk_to_resume.getD idx "")).isSome := by
    rw [List.find?_isSome]
    exact ⟨p, hp, hpe⟩
  obtain ⟨pr, hpr⟩ := Option.isSome_iff_exists.mp hsome
  exact ⟨pr.2, by rw [lookupResume, hpr]; rfl⟩

theorem seen_cond_eq (seen names : List String) (nm rn : String) :
    (seen.contains rn || (nm :: names).contains rn)
      = ((if seen.contains nm then seen else nm :: seen).contains rn
          || names.contains rn) := by
  rw [List.contains_cons]
  by_cases h : seen.contains nm
  · rw [if_pos h]
    by_cases heq : rn = nm
    · subst heq
      rw [h, beq_self_eq_true rn]
      rfl
    · have hbeq : (rn == nm) = false := beq_eq_false_iff_ne.mpr heq
      rw [hbeq]
      cases hc : seen.contains rn <;> rfl
  · rw [if_neg h, List.contains_cons]
    cases hb : (rn == nm) <;> cases hc : seen.contains rn <;> rfl

theorem swmGo_split_spec (s : ManagerState) (qv : List Int) (vecs : List (List Int))
    (hlen : s.all_chunks.length = s.chunk_to_resume.length) (hwf : chunkMapWF s) :
    ∀ (idxs : List Nat) (seen : List String) (l1 l2 : List SearchResult) (r : SearchResult),
      swmGo s qv vecs seen idxs = l1 ++ r :: l2 →
      r.formatted_text
        = cond (seen.contains r.candidate_name
            || (l1.map (fun x => x.candidate_name)).contains r.candidate_name)
            (inlineText r) (headerText r) := by
  intro idxs
  induction idxs with
  | nil =>
    intro seen l1 l2 r h
    simp only [swmGo] at h
    exact absurd h (by cases l1 <;> simp)
  | cons idx rest ih =>
    intro seen l1 l2 r h
    by_cases hidx : idx < s.all_chunks.length
    · obtain ⟨data, hdata⟩ := lookup_found s hlen hwf idx hidx
      rw [swmGo_cons_found s qv vecs seen idx rest data hidx hdata] at h
      cases l1 with
      | nil =>
        simp only [List.nil_append] at h
        injection h with h1 h2
        subst h1
        rw [swmResult_name]
        by_cases hseen : seen.contains data.metadata.candidate_name = true
        · rw [hseen]
          exact swmResult_formatted_seen s qv vecs seen idx data hseen
        · have hf : seen.contains data.metadata.candidate_name = false := by
            cases hx : seen.contains data.metadata.candidate_name
            · rfl
            · exact absurd hx hseen
          rw [hf]
          exact swmResult_formatted_fresh s qv vecs seen idx data hf
      | cons x l1x =>
        injection h with h1 h2
        have hrec := ih _ l1x l2 r h2
        rw [hrec, ← h1]
        simp only [List.map_cons, swmResult_name]
        rw [seen_cond_eq seen (l1x.map (fun x => x.candidate_name))
          data.metadata.candidate_name r.candidate_name]
    · rw [swmGo_cons_skip s qv vecs seen idx rest hidx] at h
      exact ih seen l1 l2 r h

theorem swmGo_provenance (s : ManagerState) (qv : List Int) (vecs : List (List Int))
    (hlen : s.all_chunks.length = s.chunk_to_resume.length) (hwf : chunkMapWF s) :
    ∀ (idxs : List Nat) (seen : List String) (r2 : SearchResult),
      r2 ∈ swmGo s qv vecs seen idxs →
      ∃ idx data, idx < s.all_chunks.length
        ∧ lookupResume s (s.chunk_to_resume.getD idx "") = some data
        ∧ r2.text = s.all_chunks.getD idx ""
        ∧ r2.candidate_name = data.metadata.candidate_name
        ∧ r2.current_role = data.metadata.current_role
        ∧ r2.experience_years = data.metadata.experience_years
        ∧ r2.key_skills = data.metadata.key_skills.take 5 := by
  intro idxs
  induction idxs with
  | nil =>
    intro seen r2 h
    simp [swmGo] at h
  | cons idx rest ih =>
    intro seen r2 h
    by_cases hidx : idx < s.all_chunks.length
    · obtain ⟨data, hdata⟩ := lookup_found s hlen hwf idx hidx
      rw [swmGo_cons_found s qv vecs seen idx rest data hidx hdata] at h
      rcases List.mem_cons.mp h with h1 | h1
      · subst h1
        exact ⟨idx, data, hidx, hdata, rfl, rfl, rfl, rfl, rfl⟩
      · exact ih _ r2 h1
    · rw [swmGo_cons_skip s qv vecs seen idx rest hidx] at h
      exact ih seen r2 h

/-- C9 (corrected): every result of `search_resumes_with_metadata`
carries the structured metadata of the resume owning its chunk (the
one its position maps to through the chunk-to-resume map), and a
result is formatted with the full header exactly when no earlier
result in the returned list carries the same candidate name --
deduplication is keyed on the candidate name, not on the document, so
the first result of a document whose candidate name already appeared
(for a different document) gets the inline tag. -/
theorem c9_formatting (embed : Embedding) (s : ManagerState) (q : String) (k : Nat)
    (hinv : managerInv s) (hwf : chunkMapWF s)
    (l1 l2 : List SearchResult) (r : SearchResult)
    (hsplit : search_resumes_with_metadata embed s q k = l1 ++ r :: l2) :
    (r.formatted_text
      = cond ((l1.map (fun x => x.candidate_name)).contains r.candidate_name)
          (inlineText r) (headerText r))
    ∧ ∀ r2 ∈ search_resumes_with_metadata embed s q k,
        ∃ idx data, idx < s.all_chunks.length
          ∧ lookupResume s (s.chunk_to_resume.getD idx "") = some data
          ∧ r2.text = s.all_chunks.getD idx ""
          ∧ r2.candidate_name = data.metadata.candidate_name
          ∧ r2.current_role = data.metadata.current_role
          ∧ r2.experience_years = data.metadata.experience_years
          ∧ r2.key_skills = data.metadata.key_skills.take 5 := by
  have hlen := hinv.1
  constructor
  · rcases hidx : s.index with _ | vecs
    · simp only [search_resumes_with_metadata, hidx] at hsplit
      exact absurd hsplit (by cases l1 <;> simp)
    · simp only [search_resumes_with_metadata, hidx] at hsplit
      by_cases h0 : vecs.length == 0
      · rw [if_pos h0] at hsplit
        exact absurd hsplit (by cases l1 <;> simp)
      · rw [if_neg h0] at hsplit
        exact swmGo_split_spec s (embed q) vecs hlen hwf _ [] l1 l2 r hsplit
  · intro r2 hr2
    rcases hidx : s.index with _ | vecs
    · simp only [search_resumes_with_metadata, hidx] at hr2
      simp at hr2
    · simp only [search_resumes_with_metadata, hidx] at hr2
      by_cases h0 : vecs.length == 0
      · rw [if_pos h0] at hr2
        simp at hr2
      · rw [if_neg h0] at hr2
        exact swmGo_provenance s (embed q) vecs hlen hwf _ [] r2 hr2

/-- C9 witness: the formatting theorem applied to the concrete
two-document store, identifying the second result as inline-tagged
because its candidate name already appeared. -/
theorem c9_formatting_witness :
    rC9b.formatted_text
      = cond (([rC9a].map (fun x => x.candidate_name)).contains rC9b.candidate_name)
          (inlineText rC9b) (headerText rC9b) :=
  (c9_formatting embedC9 sC9 "q" 6 (rebuild_index_inv embedC9 _)
    (by show ∀ rid ∈ sC9.chunk_to_resume, containsResume sC9 rid = true; decide)
    [rC9a] [] rC9b (by decide)).1

/-- C9 counterexample: on a store holding two different documents
(ids a_txt and b_txt) that share the candidate name "unknown", the
search returns one chunk of each; the second result is the first and
only result from document b_txt, yet it is formatted with the lighter
inline tag rather than the document-identifying header, because the
dedup set is keyed on candidate_name. -/
theorem c9_counterexample :
    (search_resumes_with_metadata embedC9 sC9 "q" 6).map
        (fun r => (r.text, r.formatted_text))
      = [("A1", "\n=== unknown (unknown) ===\nA1"), ("B1", "[unknown]: B1")]
    ∧ sC9.chunk_to_resume = ["a_txt", "b_txt"]
    ∧ ("a_txt" : String) ≠ "b_txt" := by
  refine ⟨?_, ?_, ?_⟩ <;> decide
